import Mathlib

/-!
Shallow embedding of the `pllb` package (a concurrency-safe facade over the
BuildKit `llb` graph library, with a local-source deduplication cache), from
`util/llbutil/pllb/state.go`, `inode_other.go` and `inode_windows.go`.

Strings are modelled as Lean `String`; the byte streams written into the
SHA-1 hash are modelled as `List Nat` with each element a byte (UTF-8
encoding of the Go string, as `[]byte(path)` produces). The filesystem
identity probe is a parameter (`String → Nat`), since it reads the host
filesystem. The mutable global map `withincludCache` is modelled by explicit
state passing of an association list with shadowing insert, which has the
same lookup semantics as a Go map under sequential (locked) access.
-/

namespace Pllb

/-- UTF-8 encoding of a single character, as Go produces for `[]byte(s)`. -/
def utf8Bytes (c : Char) : List Nat :=
  let n := c.toNat
  if n < 128 then [n]
  else if n < 2048 then
    [192 + n / 64, 128 + n % 64]
  else if n < 65536 then
    [224 + n / 4096, 128 + n / 64 % 64, 128 + n % 64]
  else
    [240 + n / 262144, 128 + n / 4096 % 64, 128 + n / 64 % 64, 128 + n % 64]

/-- The bytes of a Go string (UTF-8). -/
def strBytes (s : String) : List Nat :=
  (s.data.map utf8Bytes).flatten

/-- `binary.LittleEndian.PutUint64`: the 8 little-endian bytes of a uint64. -/
def le64 (n : Nat) : List Nat :=
  [n % 256, n / 256 % 256, n / 65536 % 256, n / 16777216 % 256,
   n / 4294967296 % 256, n / 1099511627776 % 256,
   n / 281474976710656 % 256, n / 72057594037927936 % 256]

/-- The 8 big-endian bytes of a uint64 (used in SHA-1 length padding). -/
def be64 (n : Nat) : List Nat :=
  [n / 72057594037927936 % 256, n / 281474976710656 % 256,
   n / 1099511627776 % 256, n / 4294967296 % 256,
   n / 16777216 % 256, n / 65536 % 256, n / 256 % 256, n % 256]

/-- The 4 big-endian bytes of a uint32. -/
def be32 (n : Nat) : List Nat :=
  [n / 16777216 % 256, n / 65536 % 256, n / 256 % 256, n % 256]

/-- Left-rotation of a 32-bit word. -/
def rotl32 (k x : Nat) : Nat :=
  ((x * 2 ^ k) % 4294967296) + (x % 4294967296) / 2 ^ (32 - k)

/-- Group a byte list into big-endian 32-bit words. -/
def toWords : List Nat → List Nat
  | b0 :: b1 :: b2 :: b3 :: rest =>
      (((b0 * 256 + b1) * 256 + b2) * 256 + b3) :: toWords rest
  | _ => []

/-- Split a byte list into 64-byte chunks; structural recursion on a fuel
bound so the kernel can evaluate it (any fuel of at least the list's length
suffices, since each step drops 64 ≥ 1 elements of a nonempty list). -/
def toChunksF : Nat → List Nat → List (List Nat)
  | _, [] => []
  | 0, _ => []
  | fuel + 1, l => l.take 64 :: toChunksF fuel (l.drop 64)

/-- Split a byte list into 64-byte chunks. -/
def toChunks (l : List Nat) : List (List Nat) :=
  toChunksF l.length l

/-- Extend the 16 message words by `n` further SHA-1 schedule words. -/
def extendWords (w : List Nat) : Nat → List Nat
  | 0 => w
  | m + 1 =>
      let i := w.length
      let nw := rotl32 1 ((w.getD (i - 3) 0) ^^^ (w.getD (i - 8) 0) ^^^
                          (w.getD (i - 14) 0) ^^^ (w.getD (i - 16) 0))
      extendWords (w ++ [nw]) m

/-- One SHA-1 round: state `(a,b,c,d,e)`, round index `i`, schedule word `w`. -/
def sha1Round (st : Nat × Nat × Nat × Nat × Nat) (iw : Nat × Nat) :
    Nat × Nat × Nat × Nat × Nat :=
  let (a, b, c, d, e) := st
  let (i, w) := iw
  let f :=
    if i < 20 then (b &&& c) ||| ((b ^^^ 4294967295) &&& d)
    else if i < 40 then b ^^^ c ^^^ d
    else if i < 60 then (b &&& c) ||| (b &&& d) ||| (c &&& d)
    else b ^^^ c ^^^ d
  let k :=
    if i < 20 then 1518500249
    else if i < 40 then 1859775393
    else if i < 60 then 2400959708
    else 3395469782
  let temp := (rotl32 5 a + f + e + k + w) % 4294967296
  (temp, a, rotl32 30 b, c, d)

/-- Process one 64-byte SHA-1 chunk, updating the five-word state. -/
def processChunk (h : Nat × Nat × Nat × Nat × Nat) (chunk : List Nat) :
    Nat × Nat × Nat × Nat × Nat :=
  let ws := extendWords (toWords chunk) 64
  let (h0, h1, h2, h3, h4) := h
  let (a, b, c, d, e) := ws.enum.foldl sha1Round h
  ((h0 + a) % 4294967296, (h1 + b) % 4294967296, (h2 + c) % 4294967296,
   (h3 + d) % 4294967296, (h4 + e) % 4294967296)

/-- SHA-1 of a byte list, returning the 20 digest bytes. -/
def sha1 (msg : List Nat) : List Nat :=
  let len := msg.length
  let padded := msg ++ 128 :: (List.replicate ((119 - len % 64) % 64) 0 ++ be64 (8 * len))
  let (a, b, c, d, e) :=
    (toChunks padded).foldl processChunk
      (1732584193, 4023233417, 2562383102, 271733878, 3285377520)
  be32 a ++ be32 b ++ be32 c ++ be32 d ++ be32 e

/-- Lowercase hexadecimal digit. -/
def hexDigit (n : Nat) : Char :=
  if n < 10 then Char.ofNat (48 + n) else Char.ofNat (87 + n)

/-- `hex.EncodeToString`: lowercase hex of a byte list. -/
def hexEncode (bytes : List Nat) : String :=
  String.mk ((bytes.map (fun b => [hexDigit (b / 16), hexDigit (b % 16)])).flatten)

/-- Go `filepath.Base` for slash-separated paths: empty input yields `"."`;
trailing separators are stripped; the suffix after the last separator is
returned; an all-separator input yields `"/"`. -/
def goBase (path : String) : String :=
  if path = "" then "."
  else
    let r := path.data.reverse.dropWhile (fun c => c = '/')
    if r.isEmpty then "/"
    else String.mk (r.takeWhile (fun c => c ≠ '/')).reverse

/-- The per-pattern normalization inside `fixIncl`'s loop body. -/
def fixInclOne (inc : String) : String :=
  if inc = "." then "./*"
  else if goBase inc = "." then inc.dropRight 1 ++ "*"
  else inc

/-- `fixIncl` from `state.go`: normalize each include pattern, accumulating
into a fresh list as the Go loop does. -/
def fixIncl (incl : List String) : List String :=
  incl.foldl (fun incl2 inc => incl2 ++ [fixInclOne inc]) []

/-- `getInodeBestEffort` (non-Windows build, `inode_other.go`). The
`syscall.Stat` outcome is a parameter `stat`: `some ino` on success (the
`Stat_t.Ino` field, a uint64), `none` on any error. -/
def getInodeBestEffort (stat : String → Option Nat) (path : String) : Nat :=
  match stat path with
  | some ino => ino % 18446744073709551616
  | none => 0

/-- `getInodeBestEffort` (Windows build, `inode_windows.go`). `openF` models
`os.Open` (`none` on error), `getInfo` models
`syscall.GetFileInformationByHandle` yielding the `FileIndexHigh` and
`FileIndexLow` uint32 fields on success. -/
def getInodeBestEffortWin {φ : Type} (openF : String → Option φ)
    (getInfo : φ → Option (Nat × Nat)) (path : String) : Nat :=
  match openF path with
  | none => 0
  | some f =>
      match getInfo f with
      | none => 0
      | some (hi, lo) =>
          ((hi % 4294967296) * 4294967296 + lo % 4294967296) % 18446744073709551616

/-- The byte stream written to the SHA-1 object by
`getSharedKeyHintFromInclude`: `addToHash(name)`, then `addToHash(path)` for
every include path; each `addToHash(p)` writes the bytes of `p` followed by
the 8 little-endian bytes of the identity probe of `p`. -/
def keyBytes (ino : String → Nat) (name : String) (incl : List String) : List Nat :=
  let addToHash := fun (h : List Nat) (path : String) =>
    h ++ strBytes path ++ le64 (ino path)
  incl.foldl addToHash (addToHash [] name)

/-- `getSharedKeyHintFromInclude` from `state.go`: hex-encoded SHA-1 of the
accumulated byte stream. The identity probe `ino` abstracts
`getInodeBestEffort` (a filesystem read). -/
def getSharedKeyHintFromInclude (ino : String → Nat) (name : String)
    (incl : List String) : String :=
  hexEncode (sha1 (keyBytes ino name incl))

/-- Model of `llb.LocalOption`: the two options `WithInclude` appends are
distinguished; any pre-existing option of the receiver is opaque. -/
inductive LocalOption where
  | includePatterns (patterns : List String)
  | sharedKeyHint (key : String)
  | extraOpt (tag : Nat)
deriving DecidableEq, Repr

/-- Model of `llb.State`: an immutable graph node. `llb.Local` records its
name and options; image/git/scratch nodes and nodes produced by other
transformations are carried opaquely. -/
inductive LLBState where
  | scratch
  | localSt (name : String) (opts : List LocalOption)
  | image (ref : String)
  | git (remote ref : String)
  | node (tag : Nat)
deriving DecidableEq, Repr

/-- The `pllb.State` wrapper: the wrapped `llb.State`, plus — only when built
by `pllb.Local` — the recorded local-source name and options. -/
structure State where
  st : LLBState
  localName : String := ""
  localOpts : List LocalOption := []
deriving DecidableEq, Repr

/-- `pllb.FromRawState`. -/
def FromRawState (st : LLBState) : State := { st := st }

/-- `pllb.Scratch`. -/
def Scratch : State := { st := LLBState.scratch }

/-- `pllb.Local`: records the name and options for later filter rewriting. -/
def Local (name : String) (opts : List LocalOption) : State :=
  { st := LLBState.localSt name opts, localName := name, localOpts := opts }

/-- `pllb.Image`. -/
def Image (ref : String) : State := { st := LLBState.image ref }

/-- `pllb.Git`. -/
def Git (remote ref : String) : State := { st := LLBState.git remote ref }

/-- The global `withincludCache` map, modelled as an association list with
shadowing insert; lookup returns the most recently inserted binding. -/
def Cache : Type := List (String × State)

/-- The empty cache, as the package sets up at start. -/
def Cache.empty : Cache := ([] : List (String × State))

/-- Go map read `withincludCache[key]`. -/
def cacheLookup (c : Cache) (k : String) : Option State :=
  List.lookup k (c : List (String × State))

/-- Go map write `withincludCache[key] = st`. -/
def cacheInsert (c : Cache) (k : String) (v : State) : Cache :=
  ((k, v) :: (c : List (String × State)) : List (String × State))

/-- `State.WithInclude` from `state.go`. The global cache is passed and
returned explicitly; `ino` abstracts the filesystem identity probe. Returns
the resulting `State` and the updated cache. -/
def State.WithInclude (ino : String → Nat) (cache : Cache) (s : State)
    (incl : List String) : State × Cache :=
  if s.localName = "" then
    (s, cache)
  else
    let incl2 := fixIncl incl
    let key := getSharedKeyHintFromInclude ino s.localName incl2
    match cacheLookup cache key with
    | some st => (st, cache)
    | none =>
        let opts := s.localOpts ++
          [LocalOption.includePatterns incl2, LocalOption.sharedKeyHint key]
        let st : State := { st := LLBState.localSt s.localName opts }
        (st, cacheInsert cache key st)

/-- The cache key as the C2 claim words it (refinement definition following
the claim's text, for comparison with the source's `keyBytes`): exactly the
name's bytes, then for each include path its bytes followed by the 8
little-endian bytes of its identity probe — no other bytes. -/
def claimedKeyBytes (ino : String → Nat) (name : String) (incl : List String) : List Nat :=
  strBytes name ++ (incl.map (fun p => strBytes p ++ le64 (ino p))).flatten

/-- Hex digest over the claim's byte stream (companion to `claimedKeyBytes`). -/
def claimedKey (ino : String → Nat) (name : String) (incl : List String) : String :=
  hexEncode (sha1 (claimedKeyBytes ino name incl))

/-- Well-formed cache: every stored `State` has an empty recorded
local-source name (all entries are built by `WithInclude`). -/
def CacheWF (c : Cache) : Prop :=
  ∀ k st, cacheLookup c k = some st → st.localName = ""

/-- The last character of a string, if any (used to phrase "pattern ends in
the character c"). -/
def lastChar (s : String) : Option Char :=
  s.data.getLast?

/-! ### Helper lemmas -/

theorem foldl_append_one {α β : Type} (f : α → β) :
    ∀ (l : List α) (a : List β),
      l.foldl (fun acc x => acc ++ [f x]) a = a ++ l.map f
  | [], a => by simp
  | x :: xs, a => by
      simp [List.foldl, foldl_append_one f xs (a ++ [f x])]

theorem fixIncl_eq_map (incl : List String) : fixIncl incl = incl.map fixInclOne := by
  simpa using foldl_append_one fixInclOne incl []

theorem keyBytes_flat (ino : String → Nat) :
    ∀ (incl : List String) (a : List Nat),
      incl.foldl (fun h path => h ++ strBytes path ++ le64 (ino path)) a =
        a ++ (incl.map (fun p => strBytes p ++ le64 (ino p))).flatten
  | [], a => by simp
  | x :: xs, a => by
      have ih := keyBytes_flat ino xs (a ++ strBytes x ++ le64 (ino x))
      simp only [List.foldl_cons]
      rw [ih]
      simp [List.append_assoc]

theorem cacheLookup_insert (c : Cache) (k k' : String) (v : State) :
    cacheLookup (cacheInsert c k v) k' =
      if k' = k then some v else cacheLookup c k' := by
  simp only [cacheLookup, cacheInsert, List.lookup]
  by_cases h : k' = k
  · simp [h]
  · have hb : (k' == k) = false := beq_eq_false_iff_ne.mpr h
    simp [hb, h]

theorem cacheLookup_empty (k : String) : cacheLookup Cache.empty k = none := rfl

/-! ### Claim theorems -/

/-- C1: `fixIncl` maps `"."` to `"./*"`; maps any other pattern whose final
path component is `"."` and which ends with the character `'.'` to that
pattern with the trailing `'.'` replaced by `'*'`; leaves any pattern whose
final path component is not `"."` unchanged; and is an elementwise map, so
list length and order are preserved. -/
theorem fixIncl_normalization (incl : List String) (inc : String) :
    (fixIncl incl).length = incl.length ∧
    fixIncl incl = incl.map fixInclOne ∧
    (inc = "." → fixInclOne inc = "./*") ∧
    (inc ≠ "." → goBase inc = "." → lastChar inc = some '.' →
      fixInclOne inc = inc.dropRight 1 ++ "*") ∧
    (goBase inc ≠ "." → fixInclOne inc = inc) := by
  refine ⟨by simp [fixIncl_eq_map], fixIncl_eq_map incl, ?_, ?_, ?_⟩
  · intro h; simp [fixInclOne, h]
  · intro hne hbase _; simp [fixInclOne, hne, hbase]
  · intro hbase
    have hne : inc ≠ "." := by
      intro e; rw [e] at hbase; exact hbase (by decide)
    simp [fixInclOne, hne, hbase]

/-- C1 witness: concrete normalizations of `"."`, `"src/."`, `"README.md"`. -/
theorem fixIncl_normalization_w :
    fixInclOne "." = "./*" ∧ fixInclOne "src/." = "src/*" ∧
    fixInclOne "README.md" = "README.md" := by
  refine ⟨(fixIncl_normalization [] ".").2.2.1 rfl, ?_,
    (fixIncl_normalization [] "README.md").2.2.2.2 (by decide)⟩
  have h := (fixIncl_normalization [] "src/.").2.2.2.1 (by decide) (by decide) (by decide)
  rw [h]; decide

/-- C10: a pattern ending in a separator whose final path component is `"."`
loses only its final character before `"*"` is appended: `"./"` becomes
`".*"` (not `"./*"`) and `"a/./"` becomes `"a/.*"` (not `"a/*"`). -/
theorem fixIncl_trailing_sep (p : String) (hsep : lastChar p = some '/')
    (hbase : goBase p = ".") :
    fixInclOne p = p.dropRight 1 ++ "*" ∧
    fixIncl ["./", "a/./"] = [".*", "a/.*"] ∧
    fixInclOne "./" ≠ "./*" ∧ fixInclOne "a/./" ≠ "a/*" := by
  have hne : p ≠ "." := by
    intro e; rw [e] at hsep; exact absurd hsep (by decide)
  exact ⟨by simp [fixInclOne, hne, hbase], by decide, by decide, by decide⟩

/-- C10 witness: the theorem applied to the concrete pattern `"./"`. -/
theorem fixIncl_trailing_sep_w :
    fixInclOne "./" = ("./").dropRight 1 ++ "*" :=
  (fixIncl_trailing_sep "./" (by decide) (by decide)).1

/-- C3: on a `State` with no recorded local-source name (image, git, scratch,
raw), `WithInclude` returns the receiver itself with the cache untouched,
whatever the include list and cache contents. -/
theorem withInclude_nonlocal (ino : String → Nat) (cache : Cache) (s : State)
    (incl : List String) (h : s.localName = "") :
    State.WithInclude ino cache s incl = (s, cache) := by
  simp [State.WithInclude, h]

/-- C3 witness: an image-built `State` passes through unchanged. -/
theorem withInclude_nonlocal_w :
    State.WithInclude (fun _ => 0) Cache.empty (Image "alpine") ["."] =
      (Image "alpine", Cache.empty) :=
  withInclude_nonlocal (fun _ => 0) Cache.empty (Image "alpine") ["."] rfl

/-- C4: for a local-source `State`, a second `WithInclude` with the same name
and include list (and unchanged identity probe) returns exactly the first
call's result and leaves the cache as the first call left it; the returned
`State` is the entry stored in the cache under the computed key. -/
theorem withInclude_dedup (ino : String → Nat) (cache : Cache) (s : State)
    (incl : List String) (h : s.localName ≠ "") :
    State.WithInclude ino (State.WithInclude ino cache s incl).2 s incl =
      State.WithInclude ino cache s incl ∧
    cacheLookup (State.WithInclude ino cache s incl).2
        (getSharedKeyHintFromInclude ino s.localName (fixIncl incl)) =
      some (State.WithInclude ino cache s incl).1 := by
  cases hl : cacheLookup cache
      (getSharedKeyHintFromInclude ino s.localName (fixIncl incl)) with
  | some st =>
      have hr : State.WithInclude ino cache s incl = (st, cache) := by
        simp [State.WithInclude, h, hl]
      rw [hr]
      constructor
      · simp [State.WithInclude, h, hl]
      · exact hl
  | none =>
      have hr : State.WithInclude ino cache s incl =
          (⟨LLBState.localSt s.localName (s.localOpts ++
              [LocalOption.includePatterns (fixIncl incl),
               LocalOption.sharedKeyHint
                 (getSharedKeyHintFromInclude ino s.localName (fixIncl incl))]),
            "", []⟩,
           cacheInsert cache
             (getSharedKeyHintFromInclude ino s.localName (fixIncl incl))
             ⟨LLBState.localSt s.localName (s.localOpts ++
               [LocalOption.includePatterns (fixIncl incl),
                LocalOption.sharedKeyHint
                  (getSharedKeyHintFromInclude ino s.localName (fixIncl incl))]),
              "", []⟩) := by
        simp [State.WithInclude, h, hl]
      rw [hr]
      constructor
      · simp [State.WithInclude, h, cacheLookup_insert]
      · simp [cacheLookup_insert]

/-- C4 witness: the dedup property at the concrete local source `"ctx"` with
include list `["."]` starting from the empty cache. -/
theorem withInclude_dedup_w :
    State.WithInclude (fun _ => 0)
        (State.WithInclude (fun _ => 0) Cache.empty (Local "ctx" []) ["."]).2
        (Local "ctx" []) ["."] =
      State.WithInclude (fun _ => 0) Cache.empty (Local "ctx" []) ["."] ∧
    cacheLookup (State.WithInclude (fun _ => 0) Cache.empty (Local "ctx" []) ["."]).2
        (getSharedKeyHintFromInclude (fun _ => 0) (Local "ctx" []).localName
          (fixIncl ["."])) =
      some (State.WithInclude (fun _ => 0) Cache.empty (Local "ctx" []) ["."]).1 :=
  withInclude_dedup (fun _ => 0) Cache.empty (Local "ctx" []) ["."] (by decide)

/-- C5: on a cache miss for a local-source `State`, `WithInclude` builds a
node whose options are the receiver's recorded options followed by the
include-patterns option (normalized list) and the shared-key-hint option
(computed key), stores that `State` under the key, and returns it. -/
theorem withInclude_miss (ino : String → Nat) (cache : Cache) (s : State)
    (incl : List String) (h : s.localName ≠ "")
    (hmiss : cacheLookup cache
      (getSharedKeyHintFromInclude ino s.localName (fixIncl incl)) = none) :
    State.WithInclude ino cache s incl =
      (⟨LLBState.localSt s.localName (s.localOpts ++
          [LocalOption.includePatterns (fixIncl incl),
           LocalOption.sharedKeyHint
             (getSharedKeyHintFromInclude ino s.localName (fixIncl incl))]),
        "", []⟩,
       cacheInsert cache
         (getSharedKeyHintFromInclude ino s.localName (fixIncl incl))
         ⟨LLBState.localSt s.localName (s.localOpts ++
           [LocalOption.includePatterns (fixIncl incl),
            LocalOption.sharedKeyHint
              (getSharedKeyHintFromInclude ino s.localName (fixIncl incl))]),
          "", []⟩) := by
  simp [State.WithInclude, h, hmiss]

/-- C5 witness: the miss-path construction at the concrete local source
`"ctx"` carrying one pre-existing opaque option, from the empty cache. -/
theorem withInclude_miss_w :
    State.WithInclude (fun _ => 0) Cache.empty
        (Local "ctx" [LocalOption.extraOpt 7]) ["."] =
      (⟨LLBState.localSt "ctx" ([LocalOption.extraOpt 7] ++
          [LocalOption.includePatterns (fixIncl ["."]),
           LocalOption.sharedKeyHint
             (getSharedKeyHintFromInclude (fun _ => 0) "ctx" (fixIncl ["."]))]),
        "", []⟩,
       cacheInsert Cache.empty
         (getSharedKeyHintFromInclude (fun _ => 0) "ctx" (fixIncl ["."]))
         ⟨LLBState.localSt "ctx" ([LocalOption.extraOpt 7] ++
           [LocalOption.includePatterns (fixIncl ["."]),
            LocalOption.sharedKeyHint
              (getSharedKeyHintFromInclude (fun _ => 0) "ctx" (fixIncl ["."]))]),
          "", []⟩) :=
  withInclude_miss (fun _ => 0) Cache.empty
    (Local "ctx" [LocalOption.extraOpt 7]) ["."] (by decide) rfl

/-- C9: starting from a well-formed cache, `WithInclude` on a local-source
`State` always returns a `State` with empty recorded local-source name
(both on the hit and the miss path), keeps the cache well-formed, and is
therefore absorbing: a second `WithInclude` with any include list returns
the first result and cache unchanged. -/
theorem withInclude_absorbing (ino : String → Nat) (cache : Cache) (s : State)
    (P Q : List String) (hwf : CacheWF cache) (h : s.localName ≠ "") :
    (State.WithInclude ino cache s P).1.localName = "" ∧
    CacheWF (State.WithInclude ino cache s P).2 ∧
    State.WithInclude ino (State.WithInclude ino cache s P).2
        (State.WithInclude ino cache s P).1 Q =
      State.WithInclude ino cache s P := by
  cases hl : cacheLookup cache
      (getSharedKeyHintFromInclude ino s.localName (fixIncl P)) with
  | some st =>
      have hname : st.localName = "" := hwf _ _ hl
      have hr : State.WithInclude ino cache s P = (st, cache) := by
        simp [State.WithInclude, h, hl]
      rw [hr]
      exact ⟨hname, hwf, by simp [State.WithInclude, hname]⟩
  | none =>
      have hr : State.WithInclude ino cache s P =
          (⟨LLBState.localSt s.localName (s.localOpts ++
              [LocalOption.includePatterns (fixIncl P),
               LocalOption.sharedKeyHint
                 (getSharedKeyHintFromInclude ino s.localName (fixIncl P))]),
            "", []⟩,
           cacheInsert cache
             (getSharedKeyHintFromInclude ino s.localName (fixIncl P))
             ⟨LLBState.localSt s.localName (s.localOpts ++
               [LocalOption.includePatterns (fixIncl P),
                LocalOption.sharedKeyHint
                  (getSharedKeyHintFromInclude ino s.localName (fixIncl P))]),
              "", []⟩) := by
        simp [State.WithInclude, h, hl]
      rw [hr]
      refine ⟨rfl, ?_, by simp [State.WithInclude]⟩
      intro k st hlk
      rw [cacheLookup_insert] at hlk
      by_cases hk : k = getSharedKeyHintFromInclude ino s.localName (fixIncl P)
      · rw [if_pos hk] at hlk
        cases hlk
        rfl
      · rw [if_neg hk] at hlk
        exact hwf _ _ hlk

/-- C9 witness: applying the filter to `Local "ctx" []` with `["."]` and then
re-applying with `["a"]` changes nothing, starting from the empty cache. -/
theorem withInclude_absorbing_w :
    (State.WithInclude (fun _ => 0) Cache.empty (Local "ctx" []) ["."]).1.localName
      = "" ∧
    CacheWF (State.WithInclude (fun _ => 0) Cache.empty (Local "ctx" []) ["."]).2 ∧
    State.WithInclude (fun _ => 0)
        (State.WithInclude (fun _ => 0) Cache.empty (Local "ctx" []) ["."]).2
        (State.WithInclude (fun _ => 0) Cache.empty (Local "ctx" []) ["."]).1
        ["a"] =
      State.WithInclude (fun _ => 0) Cache.empty (Local "ctx" []) ["."] :=
  withInclude_absorbing (fun _ => 0) Cache.empty (Local "ctx" []) ["."] ["a"]
    (fun k st hk => Option.noConfusion (cacheLookup_empty k ▸ hk)) (by decide)

set_option maxRecDepth 400000 in
/-- C2 counterexample: the cache key is NOT the digest over only the name
followed by the per-path entries — with every probe returning 0 and an empty
include list, the computed key differs from the digest over the claim's byte
stream, because the code also writes an 8-byte little-endian probe value for
the name itself. -/
theorem sharedKeyHint_claim_cex :
    getSharedKeyHintFromInclude (fun _ => 0) "n" [] ≠
      claimedKey (fun _ => 0) "n" [] ∧
    keyBytes (fun _ => 0) "n" [] ≠ claimedKeyBytes (fun _ => 0) "n" [] := by
  constructor
  · decide
  · decide

/-- C2 amended: the cache key is the hex encoding of a digest computed over
exactly the local-source name concatenated with the 8-byte little-endian
identity probe of the name itself, followed by, for each normalized include
path in order, that path string concatenated with its 8-byte little-endian
identity probe (0 when the probe fails); no other bytes enter the digest. -/
theorem sharedKeyHint_bytes (ino : String → Nat) (name : String)
    (incl : List String) :
    getSharedKeyHintFromInclude ino name incl =
      hexEncode (sha1 ((strBytes name ++ le64 (ino name)) ++
        (incl.map (fun p => strBytes p ++ le64 (ino p))).flatten)) := by
  simp only [getSharedKeyHintFromInclude, keyBytes]
  rw [keyBytes_flat]
  simp

/-- C6: the best-effort identity probe swallows every failure: a failed stat
(non-Windows), a failed open or a failed file-information query (Windows)
each yield 0, and the cache key computed with an everywhere-failing probe is
the key computed with the constant-zero probe. -/
theorem getInode_swallows_errors {φ : Type} (stat : String → Option Nat)
    (openF : String → Option φ) (getInfo : φ → Option (Nat × Nat))
    (path : String) (hstat : stat path = none) (hopen : openF path = none)
    (hall : ∀ p, stat p = none) :
    getInodeBestEffort stat path = 0 ∧
    getInodeBestEffortWin openF getInfo path = 0 ∧
    (∀ (openF2 : String → Option φ) f, openF2 path = some f →
      getInfo f = none → getInodeBestEffortWin openF2 getInfo path = 0) ∧
    (∀ name incl,
      getSharedKeyHintFromInclude (getInodeBestEffort stat) name incl =
        getSharedKeyHintFromInclude (fun _ => 0) name incl) := by
  refine ⟨by simp [getInodeBestEffort, hstat],
    by simp [getInodeBestEffortWin, hopen], ?_, ?_⟩
  · intro openF2 f hf hi
    simp [getInodeBestEffortWin, hf, hi]
  · intro name incl
    have he : getInodeBestEffort stat = fun _ => 0 := by
      funext p
      simp [getInodeBestEffort, hall p]
    rw [he]

/-- C6 witness: the everywhere-failing probes at the path `"/missing"`. -/
theorem getInode_swallows_errors_w :
    getInodeBestEffort (fun _ => none) "/missing" = 0 ∧
    getInodeBestEffortWin (fun _ => (none : Option Unit)) (fun _ => none)
      "/missing" = 0 ∧
    (∀ (openF2 : String → Option Unit) f, openF2 "/missing" = some f →
      (fun _ => (none : Option (Nat × Nat))) f = none →
      getInodeBestEffortWin openF2 (fun _ => none) "/missing" = 0) ∧
    (∀ name incl,
      getSharedKeyHintFromInclude (getInodeBestEffort (fun _ => none)) name incl =
        getSharedKeyHintFromInclude (fun _ => 0) name incl) :=
  getInode_swallows_errors (fun _ => none) (fun _ => none) (fun _ => none)
    "/missing" rfl rfl (fun _ => rfl)

set_option maxRecDepth 400000 in
/-- C7: each include path contributes to the hashed byte stream once per
occurrence (a duplicated path's entry appears twice), and the key is
order-sensitive: name `"n"` with lists `["a", "b"]` and `["b", "a"]`
produces different keys. -/
theorem sharedKeyHint_order_sensitive :
    (∀ (ino : String → Nat) (name p : String),
      keyBytes ino name [p, p] =
        keyBytes ino name [p] ++ strBytes p ++ le64 (ino p)) ∧
    getSharedKeyHintFromInclude (fun _ => 0) "n" ["a", "b"] ≠
      getSharedKeyHintFromInclude (fun _ => 0) "n" ["b", "a"] := by
  constructor
  · intro ino name p
    simp [keyBytes]
  · decide

end Pllb
